import Mathlib

/-!
Verification of the PyCarver orchestration core (src/main.py).

The Python source is shallowly embedded: each of its pure helpers
(mmlsParser, fsstatParser, getFilesTree) becomes a Lean function on the
same data, the stateful operations (CarveThread.run, App.recoverFiles,
App.carveFiles) become pure functions from the partition registry and the
captured external-tool outputs to the updated registry plus the recorded
tool invocations and messages, and the progress queue of
App.carvePartitions becomes a small interleaving semantics over a FIFO.
Python behaviours that matter to the claims are modelled explicitly:
str.find returning -1, slices with negative endpoints, str.split(" ")
keeping empty fields, truthiness of strings, IndexError/ValueError as
Option failure, and None as the none of an Option.
-/

namespace PyCarver

/-! ## Python string primitives -/

/-- Index of the first occurrence of `sub` in the character list, if any.
Mirrors the search of Python str.find. -/
def findSubAux (sub : List Char) : List Char → Option Nat
  | [] => if sub.isEmpty then some 0 else none
  | c :: t => if sub.isPrefixOf (c :: t) then some 0 else (findSubAux sub t).map (· + 1)

/-- Python s.find(sub), successful case: first index of `sub` in `s`. -/
def pyFindOpt (s sub : String) : Option Nat := findSubAux sub.data s.data

/-- Python s.find(sub): first index of `sub` in `s`, or -1. -/
def pyFind (s sub : String) : Int :=
  match pyFindOpt s sub with
  | some n => (n : Int)
  | none => -1

/-- Python `sub in s` substring test. -/
def pyIn (sub s : String) : Bool := (pyFindOpt s sub).isSome

/-- Leading-whitespace removal on a character list. -/
def stripLeft : List Char → List Char
  | [] => []
  | c :: t => if c.isWhitespace then stripLeft t else c :: t

/-- Python str.strip() with no argument: whitespace removed at both ends. -/
def pyStrip (s : String) : String :=
  ((stripLeft (stripLeft s.data).reverse).reverse).asString

/-- Python str.split(sep) for a nonempty separator, over character lists:
left-to-right non-overlapping, empty fields kept.  The fuel argument is
the input length; each step consumes at least one character. -/
def splitOnAux (sep : List Char) : Nat → List Char → List Char → List String
  | _, [], acc => [acc.reverse.asString]
  | 0, l, acc => [(acc.reverse ++ l).asString]
  | fuel + 1, c :: t, acc =>
    if sep.isPrefixOf (c :: t) then
      acc.reverse.asString :: splitOnAux sep fuel (List.drop (sep.length - 1) t) []
    else
      splitOnAux sep fuel t (c :: acc)

/-- Python s.split(sep), sep nonempty. -/
def pySplitOn (s sep : String) : List String :=
  splitOnAux sep.data s.data.length s.data []

/-- Python str.replace(old, new) for a nonempty old, over character
lists, with the input length as fuel. -/
def replaceAux (old new : List Char) : Nat → List Char → List Char
  | _, [] => []
  | 0, l => l
  | fuel + 1, c :: t =>
    if old.isPrefixOf (c :: t) then
      new ++ replaceAux old new fuel (List.drop (old.length - 1) t)
    else
      c :: replaceAux old new fuel t

/-- Python s.replace(old, new), old nonempty. -/
def pyReplace (s old new : String) : String :=
  (replaceAux old.data new.data s.data.length s.data).asString

/-- Python s.startswith(pre). -/
def pyStartswith (s pre : String) : Bool := pre.data.isPrefixOf s.data

/-- Python slice endpoint adjustment: negative indices count from the end,
everything is clamped into [0, len]. -/
def pyClampIndex (len : Nat) (i : Int) : Nat :=
  if i < 0 then ((len : Int) + i).toNat else min i.toNat len

/-- Python s[i:j] for integer endpoints (as produced by str.find). -/
def pySlice (s : String) (i j : Int) : String :=
  let a := pyClampIndex s.data.length i
  let b := pyClampIndex s.data.length j
  ((s.data.take b).drop a).asString

/-- Python s[i:] for a nonnegative index. -/
def pySliceFrom (s : String) (i : Nat) : String := (s.data.drop i).asString

/-- Digits-only decimal reading used by the int() model. -/
def digitsToNat : List Char → Option Nat
  | [] => none
  | cs => go cs 0
where
  go : List Char → Nat → Option Nat
    | [], acc => some acc
    | c :: t, acc => if c.isDigit then go t (acc * 10 + (c.toNat - '0'.toNat)) else none

/-- Python int(s) on the string forms this program feeds it: surrounding
whitespace stripped, an optional sign, then decimal digits; anything else
is a ValueError, modelled as none. -/
def pyIntParse (s : String) : Option Int :=
  match (pyStrip s).data with
  | '-' :: rest => (digitsToNat rest).map (fun n => -(n : Int))
  | '+' :: rest => (digitsToNat rest).map (fun n => (n : Int))
  | t => (digitsToNat t).map (fun n => (n : Int))

/-- Python str.splitlines for the line terminators that occur in tool
output: a line break is one of "\r\n", "\r", "\n"; a trailing terminator
produces no empty final line. -/
def splitlinesAux : List Char → List Char → List String
  | [], acc => if acc.isEmpty then [] else [acc.reverse.asString]
  | '\r' :: '\n' :: t, acc => acc.reverse.asString :: splitlinesAux t []
  | '\r' :: t, acc => acc.reverse.asString :: splitlinesAux t []
  | '\n' :: t, acc => acc.reverse.asString :: splitlinesAux t []
  | c :: t, acc => splitlinesAux t (c :: acc)

def pySplitlines (s : String) : List String := splitlinesAux s.data []

/-! ## Data model: the per-partition dictionary built by mmlsParser.

The keys Recovered and MD5Sum are added by App.openDiskImage immediately
after the parse (src/main.py lines 596-598) with the initial values used
here; `path := some ""` records that mmlsParser initialises temp["Path"]
to the empty string, not to Python None (none). -/

structure Partition where
  slot : String
  carvedFiles : String
  fsType : Option String
  path : Option String
  carved : String
  start : String
  end_ : String
  length : String
  description : String
  fileSystem : String
  name : String
  recovered : String
  md5sum : String
  deriving Repr, DecidableEq

/-- One data row of mmlsParser (src/main.py lines 104-139): the body of
the loop once the header has been seen. `line` is the already
space-split token list, `counter` the running partitionCounter. A
Python IndexError (row too short) is none. -/
def parseRow (line : List String) (counter : Nat) : Option (Partition × Nat) :=
  match line.get? 2 with
  | none => none
  | some slotTok =>
    if slotTok = "Meta" then
      match line.get? 8, line.get? 11, line.get? 14 with
      | some st, some en, some le =>
        let desc := " ".intercalate (line.drop 17)
        some ({ slot := slotTok, carvedFiles := "No", fsType := some "", path := some "",
                carved := "No", start := st, end_ := en, length := le,
                description := desc, fileSystem := "No",
                name := pyReplace desc " " "_", recovered := "No", md5sum := "" }, counter)
      | _, _, _ => none
    else
      match line.get? 5, line.get? 8, line.get? 11 with
      | some st, some en, some le =>
        let desc0 := " ".intercalate (line.drop 14)
        if pyIn ":" slotTok then
          let desc := desc0 ++ "_fs" ++ toString counter
          some ({ slot := slotTok, carvedFiles := "No", fsType := some "", path := some "",
                  carved := "No", start := st, end_ := en, length := le,
                  description := desc, fileSystem := "Yes",
                  name := pyReplace desc " " "_", recovered := "No", md5sum := "" }, counter + 1)
        else
          some ({ slot := slotTok, carvedFiles := "No", fsType := some "", path := some "",
                  carved := "No", start := st, end_ := en, length := le,
                  description := desc0, fileSystem := "No",
                  name := pyReplace desc0 " " "_", recovered := "No", md5sum := "" }, counter)
      | _, _, _ => none

/-- The block-size extraction of mmlsParser (src/main.py line 96):
line[line.find("Units are in ") + len("Units are in "):line.find("-")]. -/
def extractBS (line : String) : String :=
  pySlice line (pyFind line "Units are in " + 13) (pyFind line "-")

structure MmlsState where
  info : List Partition
  bs : Option String
  slotFound : Bool
  counter : Nat
  deriving Repr, DecidableEq

/-- One iteration of the mmlsParser loop (src/main.py lines 93-139).
The "Units are in " test runs on the raw line before the split, on every
line of the input; `bs = none` models the integer sentinel -1. -/
def mmlsStep (st : MmlsState) (rawLine : String) : Option MmlsState :=
  let bs' := if pyIn "Units are in " rawLine then some (extractBS rawLine) else st.bs
  let line := pySplitOn (pyStrip rawLine) " "
  if st.slotFound = false then
    if line.contains "Slot" then
      some { st with bs := bs', slotFound := true }
    else
      some { st with bs := bs' }
  else
    match parseRow line st.counter with
    | none => none
    | some (p, c') => some { st with info := st.info ++ [p], counter := c', bs := bs' }

def mmlsInit : MmlsState := { info := [], bs := none, slotFound := false, counter := 0 }

/-- mmlsParser (src/main.py lines 74-141) over the list of output lines. -/
def mmlsParser (f : List String) : Option (List Partition × Option String) :=
  (f.foldlM mmlsStep mmlsInit).map (fun st => (st.info, st.bs))

/-- fsstatParser (src/main.py lines 144-158): the first line containing
"File System Type: " yields the stripped remainder; none models the
implicit Python None when no line matches. -/
def fsstatParser (f : String) : Option String :=
  go (pySplitlines f)
where
  go : List String → Option String
    | [] => none
    | line :: rest =>
      match pyFindOpt line "File System Type: " with
      | some i => some (pyStrip (pySliceFrom line (i + 18)))
      | none => go rest

/-! ## getFilesTree (src/main.py lines 161-214)

A directory node: the list of file paths directly inside it, plus
children keyed by directory path.  The Python value is a dict with a
"Files" key next to the child-path keys; the two parts are separated
here.  Dicts are insertion-ordered association lists.  os.sep is "/". -/

inductive DirNode where
  | node (files : List String) (children : List (String × DirNode))

def DirNode.children : DirNode → List (String × DirNode)
  | .node _ ch => ch

def DirNode.files : DirNode → List String
  | .node fs _ => fs

/-- Python dict lookup. -/
def alGet (m : List (String × DirNode)) (k : String) : Option DirNode :=
  match m with
  | [] => none
  | (k', v) :: t => if k' = k then some v else alGet t k

/-- Python dict assignment: overwrite in place, else append. -/
def alSet (m : List (String × DirNode)) (k : String) (v : DirNode) :
    List (String × DirNode) :=
  match m with
  | [] => [(k, v)]
  | (k', v') :: t => if k' = k then (k, v) :: t else (k', v') :: alSet t k v

/-- Python del dict[k]. -/
def alDel (m : List (String × DirNode)) (k : String) : List (String × DirNode) :=
  match m with
  | [] => []
  | (k', v') :: t => if k' = k then t else (k', v') :: alDel t k

/-- Step 1 of getFilesTree: record one flat node per walked directory
(files get the dirpath + os.sep prefix) and remember discovery order. -/
def buildFlat (walk : List (String × List String)) :
    List (String × DirNode) × List String :=
  walk.foldl
    (fun acc e =>
      (alSet acc.1 e.1 (DirNode.node (e.2.map (fun f => e.1 ++ "/" ++ f)) []),
       acc.2 ++ [e.1]))
    ([], [])

def attachChild (dn : DirNode) (k : String) (v : DirNode) : DirNode :=
  .node dn.files (alSet dn.children k v)

structure TreeFoldState where
  dirm : List (String × DirNode)
  done : List String

/-- The inner `for sub in directories` loop of getFilesTree: fold any
not-yet-done sub whose path string starts with d (naive startswith, as
in the source) into d's node and delete it from the flat map.  A Python
KeyError is none. -/
def innerLoop (d : String) (st : TreeFoldState) : List String → Option TreeFoldState
  | [] => some st
  | sub :: rest =>
    if st.done.contains sub = false ∧ pyStartswith sub d ∧ sub ≠ d then
      match alGet st.dirm d, alGet st.dirm sub with
      | some dn, some sn =>
        innerLoop d
          { dirm := alDel (alSet st.dirm d (attachChild dn sub sn)) sub,
            done := st.done ++ [sub] } rest
      | _, _ => none
    else
      innerLoop d st rest

/-- The outer `for d in directories` loop. -/
def outerLoop (dirs : List String) : TreeFoldState → List String → Option TreeFoldState
  | st, [] => some st
  | st, d :: rest =>
    match innerLoop d st dirs with
    | none => none
    | some st' => outerLoop dirs st' rest

/-- getFilesTree over a recorded filesystem walk: the list of
(dirpath, filenames) pairs that os.walk yielded, in walk order
(dirnames are unused by the source).  Step 2 reverses discovery order
and runs the quadratic fold. -/
def getFilesTree (walk : List (String × List String)) :
    Option (List (String × DirNode)) :=
  let flat := buildFlat walk
  let dirs := flat.2.reverse
  (outerLoop dirs { dirm := flat.1, done := [] } dirs).map (·.dirm)

/-- Walk down a built tree along a chain of directory keys. -/
def lookupChain (m : List (String × DirNode)) : List String → Option DirNode
  | [] => none
  | [k] => alGet m k
  | k :: rest =>
    match alGet m k with
    | none => none
    | some n => lookupChain n.children rest

/-- Number of direct child directories of the node reached by a chain of
keys: a tree-isomorphism invariant of the keyed nested structure. -/
def childCount (m : List (String × DirNode)) (chain : List String) : Option Nat :=
  (lookupChain m chain).map (fun n => n.children.length)

/-! ## CarveThread.run (src/main.py lines 308-389) -/

structure ToolOut where
  stdout : String
  stderr : String
  deriving Repr, DecidableEq

structure Msg where
  text : String
  deli : String
  deriving Repr, DecidableEq

structure CarveConfig where
  ddPath : String
  imagePath : String
  bs : String
  fsstatPath : String
  outFolder : String
  deriving Repr, DecidableEq

/-- Result of one carve job: the success flag, the job's partition after
the run, the queue messages in production order, the direct console
writes, the external invocations (argv lists) and whether the thread
died of the TypeError raised when fsstatParser returns None. -/
structure CarveResult where
  success : Bool
  part : Partition
  msgs : List Msg
  console : List String
  invocations : List (List String)
  crashed : Bool
  deriving Repr, DecidableEq

/-- The success classification and registry update of CarveThread.run
(src/main.py lines 331-370), with the nested branching of the source
kept as written, including the dead re-test of stdout inside the
stderr branch. -/
def carveClassify (p : Partition) (outPath name : String) (dd : ToolOut) :
    Bool × Partition × List Msg × List String :=
  if dd.stdout ≠ "" then
    if pyIn "records" dd.stdout then
      (true, { p with carved := "Yes", path := some outPath },
       [Msg.mk ("Success: " ++ name) "\t"], ["Success!"])
    else
      if dd.stderr ≠ "" then
        if pyIn "records" dd.stdout then
          (true, { p with carved := "Yes", path := some outPath },
           [Msg.mk ("Success: " ++ name) "\t"], [])
        else (false, p, [], [])
      else (false, p, [Msg.mk ("Failure: " ++ name) "\t"], [])
  else
    if dd.stderr ≠ "" then
      if pyIn "records" dd.stderr then
        (true, { p with carved := "Yes", path := some outPath },
         [Msg.mk ("Success: " ++ name) "\t"], [])
      else (false, p, [Msg.mk ("Failure: " ++ name) "\t"], [])
    else (false, p, [Msg.mk ("Failure: " ++ name) "\t"], [])

/-- CarveThread.run as a function of the partition and the captured
outputs of the two external calls (dd, then fsstat when the partition
is filesystem-bearing). -/
def carveRun (cfg : CarveConfig) (p : Partition) (dd : ToolOut) (fs : ToolOut) :
    CarveResult :=
  let name := p.name
  let outPath := cfg.outFolder ++ "/" ++ name
  let cmd := [cfg.ddPath, "if=" ++ cfg.imagePath, "of=" ++ outPath, "bs=" ++ cfg.bs,
              "skip=" ++ p.start, "count=" ++ p.length]
  let msgs1 := [Msg.mk ("Attempting to carve partition " ++ name ++ "...") "\t",
                Msg.mk (" ".intercalate cmd) "$"]
  let cl := carveClassify p outPath name dd
  let success := cl.1
  let p1 := cl.2.1
  let msgs2 := msgs1 ++ cl.2.2.1
  let console := cl.2.2.2
  if p1.fileSystem = "Yes" then
    let probeCmd := [cfg.fsstatPath, outPath]
    let msgs3 := msgs2 ++ [Msg.mk (" ".intercalate probeCmd) "$"]
    if fs.stdout ≠ "" then
      match fsstatParser fs.stdout with
      | some ty =>
        { success := success, part := { p1 with fsType := some ty },
          msgs := msgs3 ++ [Msg.mk ("FSType: " ++ ty) "\t"], console := console,
          invocations := [cmd, probeCmd], crashed := false }
      | none =>
        -- the source stores the None, then raises TypeError building the message
        { success := success, part := { p1 with fsType := none },
          msgs := msgs3, console := console,
          invocations := [cmd, probeCmd], crashed := true }
    else
      { success := success, part := p1,
        msgs := msgs3 ++ [Msg.mk ("FSType: " ++ fs.stderr) "\t"], console := console,
        invocations := [cmd, probeCmd], crashed := false }
  else
    { success := success, part := p1, msgs := msgs2, console := console,
      invocations := [cmd], crashed := false }

/-! ## App.recoverFiles (src/main.py lines 723-829), non-GUI effects -/

structure RecoverState where
  regs : List Partition
  invocations : List (List String)
  console : List Msg
  crashed : Bool

/-- The per-partition name computed at src/main.py lines 749-750:
Description[:Description.find("(")] with spaces removed and "/"
replaced, suffixed with the index. -/
def recName (desc : String) (i : Nat) : String :=
  pyReplace (pyReplace (pySlice desc 0 (pyFind desc "(")) " " "") "/" "_"
    ++ "_" ++ toString i

/-- One iteration of the recovery loop for selected index i, with the
tsk_recover output supplied by `oracle`.  The tree building, hashing and
table display on the success path have no effect on the registry flags
and are omitted; an uncaught IndexError/ValueError from
int(stdout.split(":")[1]) aborts the remaining iterations (crashed). -/
def recoverStep (tskPath outFolder : String) (oracle : Nat → ToolOut)
    (st : RecoverState) (i : Nat) : RecoverState :=
  if st.crashed then st else
  match st.regs.get? i with
  | none => { st with crashed := true }
  | some p =>
    let name := recName p.description i
    let console1 := st.console ++
      [Msg.mk ("Attempting to recover files from " ++ name ++ " partition...") "\t"]
    match p.path with
    | none =>
      { st with console := console1 ++
          [Msg.mk "Partition not carved. Carve the partition first and try again." "\t"] }
    | some partitionPath =>
      let out := outFolder ++ "/out_" ++ name
      let cmds := [tskPath, partitionPath, out]
      let invocations1 := st.invocations ++ [cmds]
      let console2 := console1 ++ [Msg.mk (" ".intercalate cmds) "$"]
      let t := oracle i
      if t.stdout ≠ "" then
        match ((pySplitOn t.stdout ":").get? 1).bind pyIntParse with
        | none =>
          { regs := st.regs, invocations := invocations1, console := console2,
            crashed := true }
        | some n =>
          if n ≠ 0 then
            { regs := st.regs.set i { p with recovered := "Yes" },
              invocations := invocations1,
              console := console2 ++
                [Msg.mk "Recovering files from selected partitions..." "\t"],
              crashed := false }
          else
            -- messagebox "No deleted files were recovered", no registry change
            { regs := st.regs, invocations := invocations1, console := console2,
              crashed := false }
      else
        { regs := st.regs.set i { p with recovered := "No" },
          invocations := invocations1, console := console2, crashed := false }

/-- The sequential recovery pass over the selected indices. -/
def recoverFiles (tskPath outFolder : String) (oracle : Nat → ToolOut)
    (selected : List Nat) (regs : List Partition) : RecoverState :=
  selected.foldl (recoverStep tskPath outFolder oracle)
    { regs := regs, invocations := [], console := [], crashed := false }

/-! ## App.carveFiles (src/main.py lines 1178-1283), flag effects -/

structure CarveFilesResult where
  part : Partition
  crashed : Bool
  errorShown : Bool
  deriving Repr, DecidableEq

/-- The scalpel-output handling of App.carveFiles as it affects the
selected partition: fatal "ERROR" on stderr (or empty stdout) shows an
error box and changes nothing; otherwise the carved-file count is read
from "files carved = <n>," and a nonzero count sets CarvedFiles. -/
def carveFilesRun (p : Partition) (t : ToolOut) : CarveFilesResult :=
  if t.stdout ≠ "" then
    if t.stderr ≠ "" ∧ pyIn "ERROR" t.stderr then
      { part := p, crashed := false, errorShown := true }
    else
      match ((pySplitOn t.stdout "files carved = ").get? 1).bind
          (fun seg => pyIntParse (((pySplitOn seg ",").getD 0 ""))) with
      | none => { part := p, crashed := true, errorShown := false }
      | some n =>
        if n ≠ 0 then
          { part := { p with carvedFiles := "Yes" }, crashed := false,
            errorShown := false }
        else
          { part := p, crashed := false, errorShown := false }
  else
    { part := p, crashed := false, errorShown := true }

/-! ## The progress queue of App.carvePartitions (src/main.py 850-891)

Every job puts its messages, in its own order, on one shared FIFO
(queue.Queue); the orchestrator polls it (skipping when empty) while
jobs are active and drains the remainder after all jobs finish.  The
concurrency is modelled as an arbitrary interleaving of per-job put
events and consumer get events over the FIFO. -/

structure QMsg where
  job : Nat
  text : String
  deriving Repr, DecidableEq

inductive QEvent where
  | put (j : Nat)
  | get
  deriving Repr, DecidableEq

structure QueueState where
  pending : List (List QMsg)
  queue : List QMsg
  out : List QMsg
  deriving Repr, DecidableEq

/-- One scheduler step: job j transfers its next message to the FIFO
tail, or the orchestrator takes the FIFO head (a get on an empty queue
is the `if cmdsQueue.empty(): continue` poll and does nothing). -/
def qstep (st : QueueState) : QEvent → QueueState
  | .put j =>
    match st.pending.get? j with
    | some (m :: rest) =>
      { st with pending := st.pending.set j rest, queue := st.queue ++ [m] }
    | _ => st
  | .get =>
    match st.queue with
    | [] => st
    | m :: rest => { st with queue := rest, out := st.out ++ [m] }

def runEvents (evs : List QEvent) (st : QueueState) : QueueState :=
  evs.foldl qstep st

/-- The final `while not cmdsQueue.empty()` drain. -/
def drainFrom (out : List QMsg) : List QMsg → List QMsg
  | [] => out
  | m :: rest => drainFrom (out ++ [m]) rest

def drainAll (st : QueueState) : QueueState :=
  { st with out := drainFrom st.out st.queue, queue := [] }

def tagJob (j : Nat) (msgs : List String) : List QMsg :=
  msgs.map (fun t => { job := j, text := t })

/-- Initial state: each job holds its own message sequence. -/
def qInit (jobs : List (List String)) : QueueState :=
  { pending := jobs.enum.map (fun e => tagJob e.1 e.2), queue := [], out := [] }

/-- The messages of job j inside a consumed stream, in consumption order. -/
def projJob (j : Nat) (l : List QMsg) : List String :=
  (l.filter (fun m => m.job == j)).map (·.text)

/-! ## Definitions taken from the words of the claims (for comparison
with the source embeddings above) -/

/-- Following the words of the claims only: split a row on whitespace,
empty fields dropped (as "split on whitespace" reads, and as Python
str.split() with no argument behaves). -/
def pySplitWsAux : List Char → List Char → List String
  | [], acc => if acc.isEmpty then [] else [acc.reverse.asString]
  | c :: t, acc =>
    if c.isWhitespace then
      if acc.isEmpty then pySplitWsAux t [] else acc.reverse.asString :: pySplitWsAux t []
    else
      pySplitWsAux t (c :: acc)

def wsTokens (s : String) : List String := pySplitWsAux s.data []

/-- Following the words of the claims only: read the start/end/length
and description fields of a row by position in its whitespace-split
token list, per the stated Meta/other shapes. -/
def specRowRead (row : String) : Option (String × String × String × String) :=
  let t := wsTokens row
  if t.get? 2 = some "Meta" then
    match t.get? 8, t.get? 11, t.get? 14 with
    | some a, some b, some c => some (a, b, c, " ".intercalate (t.drop 17))
    | _, _, _ => none
  else
    match t.get? 5, t.get? 8, t.get? 11 with
    | some a, some b, some c => some (a, b, c, " ".intercalate (t.drop 14))
    | _, _, _ => none

/-! ## Sample inputs used by counterexamples and witnesses -/

/-- A filesystem-bearing data row as produced for the end-to-end sample:
`slot` is the token at index 2 of the space-split row, as in the source. -/
def samplePartition : Partition :=
  { slot := "000:000", carvedFiles := "No", fsType := some "", path := some "",
    carved := "No", start := "0000002048", end_ := "0000206847", length := "0000204800",
    description := "Linux (0x83)_fs0", fileSystem := "No",
    name := "Linux_(0x83)_fs0", recovered := "No", md5sum := "" }

def sampleConfig : CarveConfig :=
  { ddPath := "/bin/dd", imagePath := "/img.dd", bs := "512",
    fsstatPath := "/usr/bin/fsstat", outFolder := "/out" }

def metaRowSample : String :=
  "000:  Meta      0000000000   0000000000   0000000001   Primary Table (#0)"

def fsRowSample : String :=
  "002:  000:000   0000002048   0000206847   0000204800   Linux (0x83)"

/-! ## Facts about the carve-success classification -/

theorem pyIn_records_empty : pyIn "records" "" = false := by decide

theorem carveClassify_success_eq (p : Partition) (outPath name : String) (dd : ToolOut) :
    (carveClassify p outPath name dd).1 =
      (pyIn "records" dd.stdout || (dd.stdout == "" && pyIn "records" dd.stderr)) := by
  unfold carveClassify
  by_cases h1 : dd.stdout = "" <;>
    by_cases h2 : dd.stderr = "" <;>
      by_cases h3 : pyIn "records" dd.stdout <;>
        by_cases h4 : pyIn "records" dd.stderr <;>
          simp_all [pyIn_records_empty]

theorem carveRun_success_eq (cfg : CarveConfig) (p : Partition) (dd fs : ToolOut) :
    (carveRun cfg p dd fs).success =
      (carveClassify p (cfg.outFolder ++ "/" ++ p.name) p.name dd).1 := by
  unfold carveRun
  dsimp only
  split
  · split
    · split <;> rfl
    · rfl
  · rfl

/-- C1 (amended): the job's success flag is true iff "records" occurs in
the copier's stdout, or stdout is empty and "records" occurs in stderr.
A nonempty stdout without the token together with a stderr containing it
is a failure, so "token in either stream" is not the classification; the
three table rows of the claim classify as the claim states. -/
theorem carve_success_iff_amended :
    (∀ (cfg : CarveConfig) (p : Partition) (dd fs : ToolOut),
      ((carveRun cfg p dd fs).success = true ↔
        (pyIn "records" dd.stdout = true ∨
         (dd.stdout = "" ∧ pyIn "records" dd.stderr = true)))) ∧
    (∀ (cfg : CarveConfig) (p : Partition) (fs : ToolOut),
      (carveRun cfg p { stdout := "1000 records in", stderr := "" } fs).success = true ∧
      (carveRun cfg p { stdout := "", stderr := "" } fs).success = false ∧
      (carveRun cfg p { stdout := "", stderr := "0 records out" } fs).success = true) := by
  have key : ∀ (cfg : CarveConfig) (p : Partition) (dd fs : ToolOut),
      ((carveRun cfg p dd fs).success = true ↔
        (pyIn "records" dd.stdout = true ∨
         (dd.stdout = "" ∧ pyIn "records" dd.stderr = true))) := by
    intro cfg p dd fs
    rw [carveRun_success_eq, carveClassify_success_eq]
    simp [Bool.or_eq_true, Bool.and_eq_true, beq_iff_eq]
  refine ⟨key, fun cfg p fs => ⟨?_, ?_, ?_⟩⟩
  · exact (key cfg p _ fs).mpr (Or.inl (by decide))
  · rw [carveRun_success_eq, carveClassify_success_eq]
    decide
  · exact (key cfg p _ fs).mpr (Or.inr ⟨rfl, by decide⟩)

/-- C1, counterexample to the claim as stated: with stdout "x" and
stderr "10 records out" the token "records" appears in one of the two
streams, yet the job is classified a failure. -/
theorem carve_success_not_either_stream_cex :
    pyIn "records" "10 records out" = true ∧
    (carveRun sampleConfig samplePartition
      { stdout := "x", stderr := "10 records out" }
      { stdout := "", stderr := "" }).success = false := by
  constructor <;> decide

/-! ## getFilesTree misbehaviour witnesses (C3, C4) -/

/-- A walk of a root with two sibling directories whose names overlap as
string prefixes. -/
def siblingWalk : List (String × List String) :=
  [("/r", []), ("/r/foo", []), ("/r/foobar", [])]

/-- C3: on a walk containing the sibling directories /r/foo and
/r/foobar, the built tree nests /r/foobar under /r/foo (it is reachable
by the chain /r, /r/foo, /r/foobar, and /r is the only top-level key),
because the attach test is the naive string startswith of the source. -/
theorem tree_sibling_folded_under_sibling :
    (getFilesTree siblingWalk).map
      (fun m => ((lookupChain m ["/r", "/r/foo", "/r/foobar"]).isSome,
                 m.map Prod.fst))
      = some (true, ["/r"]) := by
  decide

/-- Walk of the structure /r ⊃ \x7bfoo, foobar ⊃ \x7bx\x7d\x7d with the sibling
order foo before foobar. -/
def walkFooFirst : List (String × List String) :=
  [("/r", []), ("/r/foo", []), ("/r/foobar", []), ("/r/foobar/x", [])]

/-- Walk of the same structure with foobar (and its child) before foo:
os.walk may yield either order, parents always before children. -/
def walkFoobarFirst : List (String × List String) :=
  [("/r", []), ("/r/foobar", []), ("/r/foobar/x", []), ("/r/foo", [])]

/-- C4: two valid walks of the same unchanged directory structure yield
trees in which the node keyed /r/foo has a different number of child
directories (1 versus 2), so the results are not isomorphic as keyed
nested structures: the build is walk-order dependent. -/
theorem tree_walk_order_dependent :
    (getFilesTree walkFooFirst).bind (fun m => childCount m ["/r", "/r/foo"]) = some 1 ∧
    (getFilesTree walkFoobarFirst).bind (fun m => childCount m ["/r", "/r/foo"]) = some 2 := by
  constructor <;> decide

/-! ## Recovery of an uncarved partition (C7) -/

/-- C7: the parser left path = some "" on this never-carved partition,
so the None test of the source does not fire: the recovery tool is
invoked (with the empty partition path) and the "must carve first"
message is never produced. -/
theorem recover_uncarved_invokes_tool :
    samplePartition.carved = "No" ∧ samplePartition.path = some "" ∧
    (recoverFiles "/usr/bin/tsk_recover" "/f" (fun _ => { stdout := "", stderr := "" })
        [0] [samplePartition]).invocations
      = [["/usr/bin/tsk_recover", "", "/f/out_Linux_0"]] ∧
    ((recoverFiles "/usr/bin/tsk_recover" "/f" (fun _ => { stdout := "", stderr := "" })
        [0] [samplePartition]).console.map (fun m => m.text)).contains
        "Partition not carved. Carve the partition first and try again." = false := by
  refine ⟨rfl, rfl, ?_, ?_⟩ <;> decide

/-! ## The unconditional filesystem probe (C10) -/

theorem carveClassify_fileSystem (p : Partition) (outPath name : String) (dd : ToolOut) :
    (carveClassify p outPath name dd).2.1.fileSystem = p.fileSystem := by
  unfold carveClassify
  split_ifs <;> rfl

/-- C10: for a filesystem-bearing partition the job always performs
exactly the two invocations dd then fsstat on the job's output path —
whatever the dd outputs were, so also on a classified failure — and a
nonempty fsstat stdout always leaves fsstatParser's result stored in
the partition's FSType field. -/
theorem probe_unconditional_on_filesystem (cfg : CarveConfig) (p : Partition)
    (dd fs : ToolOut) (h : p.fileSystem = "Yes") :
    (carveRun cfg p dd fs).invocations =
      [[cfg.ddPath, "if=" ++ cfg.imagePath, "of=" ++ (cfg.outFolder ++ "/" ++ p.name),
        "bs=" ++ cfg.bs, "skip=" ++ p.start, "count=" ++ p.length],
       [cfg.fsstatPath, cfg.outFolder ++ "/" ++ p.name]] ∧
    (fs.stdout ≠ "" → (carveRun cfg p dd fs).part.fsType = fsstatParser fs.stdout) := by
  have hfs : (carveClassify p (cfg.outFolder ++ "/" ++ p.name) p.name dd).2.1.fileSystem
      = "Yes" := by
    rw [carveClassify_fileSystem]; exact h
  unfold carveRun
  dsimp only
  rw [if_pos hfs]
  constructor
  · split
    · split <;> rfl
    · rfl
  · intro hne
    rw [if_pos hne]
    cases hfp : fsstatParser fs.stdout <;> simp [hfp]

/-- C10 witness: a concrete filesystem-bearing partition whose dd output
is classified a failure still gets the fsstat invocation and the parsed
type stored. -/
theorem probe_unconditional_on_filesystem_witness :
    ({ samplePartition with fileSystem := "Yes" } : Partition).fileSystem = "Yes" ∧
    (carveRun sampleConfig { samplePartition with fileSystem := "Yes" }
      { stdout := "", stderr := "boom" }
      { stdout := "File System Type: NTFS", stderr := "" }).success = false ∧
    (carveRun sampleConfig { samplePartition with fileSystem := "Yes" }
      { stdout := "", stderr := "boom" }
      { stdout := "File System Type: NTFS", stderr := "" }).invocations =
      [["/bin/dd", "if=/img.dd", "of=/out/Linux_(0x83)_fs0", "bs=512",
        "skip=0000002048", "count=0000204800"],
       ["/usr/bin/fsstat", "/out/Linux_(0x83)_fs0"]] ∧
    (carveRun sampleConfig { samplePartition with fileSystem := "Yes" }
      { stdout := "", stderr := "boom" }
      { stdout := "File System Type: NTFS", stderr := "" }).part.fsType = some "NTFS" := by
  have h := probe_unconditional_on_filesystem sampleConfig
    { samplePartition with fileSystem := "Yes" }
    { stdout := "", stderr := "boom" }
    { stdout := "File System Type: NTFS", stderr := "" } rfl
  refine ⟨rfl, by decide, h.1, ?_⟩
  rw [h.2 (by decide)]
  decide

/-! ## Row parsing by token position (C2) -/

/-- The field/positions relation the (amended) claim asserts of one data
row: `toks` is the token list, `counter` the filesystem counter at that
row, `p` the produced partition. -/
def rowFieldsOK (toks : List String) (counter : Nat) (p : Partition) : Prop :=
  (toks.get? 2 = some "Meta" →
    toks.get? 8 = some p.start ∧ toks.get? 11 = some p.end_ ∧
    toks.get? 14 = some p.length ∧
    p.description = " ".intercalate (toks.drop 17)) ∧
  (∀ t, toks.get? 2 = some t → t ≠ "Meta" →
    toks.get? 5 = some p.start ∧ toks.get? 8 = some p.end_ ∧
    toks.get? 11 = some p.length ∧
    (if pyIn ":" t then
      p.description = " ".intercalate (toks.drop 14) ++ "_fs" ++ toString counter
     else
      p.description = " ".intercalate (toks.drop 14))) ∧
  (p.name = pyReplace p.description " " "_")

theorem parseRow_fields (toks : List String) (c : Nat) (p : Partition) (c' : Nat)
    (h : parseRow toks c = some (p, c')) : rowFieldsOK toks c p := by
  unfold parseRow at h
  cases h2 : toks.get? 2 with
  | none => rw [h2] at h; exact absurd h (by simp)
  | some slotTok =>
    rw [h2] at h
    dsimp only at h
    by_cases hm : slotTok = "Meta"
    · rw [if_pos hm] at h
      cases h8 : toks.get? 8 with
      | none => rw [h8] at h; exact absurd h (by simp)
      | some v8 =>
        rw [h8] at h
        cases h11 : toks.get? 11 with
        | none => rw [h11] at h; exact absurd h (by simp)
        | some v11 =>
          rw [h11] at h
          cases h14 : toks.get? 14 with
          | none => rw [h14] at h; exact absurd h (by simp)
          | some v14 =>
            rw [h14] at h
            simp only [Option.some.injEq, Prod.mk.injEq] at h
            obtain ⟨hp, -⟩ := h
            subst hp hm
            refine ⟨fun _ => ⟨h8, h11, h14, rfl⟩, fun t ht hne => absurd ?_ hne, rfl⟩
            rw [h2] at ht
            exact (Option.some.injEq _ _ ▸ ht).symm
    · rw [if_neg hm] at h
      cases h5 : toks.get? 5 with
      | none => rw [h5] at h; exact absurd h (by simp)
      | some v5 =>
        rw [h5] at h
        cases h8 : toks.get? 8 with
        | none => rw [h8] at h; exact absurd h (by simp)
        | some v8 =>
          rw [h8] at h
          cases h11 : toks.get? 11 with
          | none => rw [h11] at h; exact absurd h (by simp)
          | some v11 =>
            rw [h11] at h
            dsimp only at h
            by_cases hc : pyIn ":" slotTok
            · rw [if_pos hc] at h
              simp only [Option.some.injEq, Prod.mk.injEq] at h
              obtain ⟨hp, -⟩ := h
              subst hp
              refine ⟨fun hmeta => ?_, fun t ht hne => ?_, rfl⟩
              · rw [h2] at hmeta
                exact absurd (Option.some.injEq _ _ ▸ hmeta) hm
              · rw [h2] at ht
                obtain rfl : slotTok = t := Option.some.injEq _ _ ▸ ht
                exact ⟨h5, h8, h11, by rw [if_pos hc]⟩
            · rw [if_neg hc] at h
              simp only [Option.some.injEq, Prod.mk.injEq] at h
              obtain ⟨hp, -⟩ := h
              subst hp
              refine ⟨fun hmeta => ?_, fun t ht hne => ?_, rfl⟩
              · rw [h2] at hmeta
                exact absurd (Option.some.injEq _ _ ▸ hmeta) hm
              · rw [h2] at ht
                obtain rfl : slotTok = t := Option.some.injEq _ _ ▸ ht
                exact ⟨h5, h8, h11, by rw [if_neg hc]⟩

/-- C2 (amended): after the header, a successfully parsed row is the
stripped line split on single space characters (empty tokens kept), and
the fields are read at the positions the claim names — 8/11/14 and 17+
for Meta rows, 5/8/11 and 14+ for other rows — from that space-split
token list (not a whitespace-collapsed one). -/
theorem mmls_row_positional_amended (st : MmlsState) (raw : String) (st' : MmlsState)
    (h1 : st.slotFound = true) (h2 : mmlsStep st raw = some st') :
    ∃ p c', parseRow (pySplitOn (pyStrip raw) " ") st.counter = some (p, c') ∧
      st'.info = st.info ++ [p] ∧
      rowFieldsOK (pySplitOn (pyStrip raw) " ") st.counter p := by
  unfold mmlsStep at h2
  rw [h1] at h2
  simp only [Bool.true_eq_false, if_false] at h2
  cases hpr : parseRow (pySplitOn (pyStrip raw) " ") st.counter with
  | none => rw [hpr] at h2; exact absurd h2 (by simp)
  | some pc =>
    obtain ⟨p, c'⟩ := pc
    rw [hpr] at h2
    simp only [Option.some.injEq] at h2
    exact ⟨p, c', rfl, by rw [← h2], parseRow_fields _ _ _ _ hpr⟩

/-- C2 witness: the amended positional reading at the concrete
filesystem row of the sample table. -/
theorem mmls_row_positional_amended_witness :
    ({ info := [], bs := none, slotFound := true, counter := 0 } : MmlsState).slotFound
      = true ∧
    ∃ st', mmlsStep { info := [], bs := none, slotFound := true, counter := 0 }
        fsRowSample = some st' ∧
      ∃ p c', parseRow (pySplitOn (pyStrip fsRowSample) " ") 0 = some (p, c') ∧
        st'.info = [] ++ [p] ∧
        rowFieldsOK (pySplitOn (pyStrip fsRowSample) " ") 0 p := by
  refine ⟨rfl, ?_⟩
  cases hst : mmlsStep { info := [], bs := none, slotFound := true, counter := 0 }
      fsRowSample with
  | none => exact absurd hst (by decide)
  | some st' =>
    exact ⟨st', rfl, mmls_row_positional_amended _ fsRowSample st' rfl hst⟩

/-- C2, counterexample to the claim as stated: on the concrete Meta row,
reading by position in the whitespace-split token list fails outright
(token 8 does not exist: the row has only 8 whitespace-separated
tokens), while the parser succeeds and returns the field values that
live at positions 8/11/14/17+ of the single-space split. -/
theorem mmls_whitespace_split_cex :
    specRowRead metaRowSample = none ∧
    (wsTokens metaRowSample).length = 8 ∧
    (mmlsParser ["Slot", metaRowSample]).map
        (fun r => r.1.map (fun p => (p.start, p.end_, p.length, p.description)))
      = some [("0000000000", "0000000000", "0000000001", "Primary Table (#0)")] := by
  refine ⟨?_, ?_, ?_⟩ <;> decide

/-! ## The block-size marker (C8) -/

/-- The cumulative effect of the per-line "Units are in " test of the
source, over all lines of the input. -/
def unitsFold (lines : List String) (b0 : Option String) : Option String :=
  lines.foldl
    (fun b l => if pyIn "Units are in " l then some (extractBS l) else b) b0

theorem mmlsStep_bs (st : MmlsState) (l : String) (st' : MmlsState)
    (h : mmlsStep st l = some st') :
    st'.bs = if pyIn "Units are in " l then some (extractBS l) else st.bs := by
  unfold mmlsStep at h
  dsimp only at h
  split at h
  · split at h <;> (simp only [Option.some.injEq] at h; rw [← h])
  · split at h
    · exact absurd h (by simp)
    · simp only [Option.some.injEq] at h
      rw [← h]

theorem mmls_fold_bs (lines : List String) (st st' : MmlsState)
    (h : List.foldlM mmlsStep st lines = some st') :
    st'.bs = unitsFold lines st.bs := by
  induction lines generalizing st with
  | nil =>
    rw [List.foldlM_nil] at h
    simp only [pure, Option.some.injEq] at h
    rw [← h]; rfl
  | cons l t ih =>
    rw [List.foldlM_cons] at h
    cases hstep : mmlsStep st l with
    | none => rw [hstep] at h; exact absurd h (by simp [Bind.bind])
    | some s1 =>
      rw [hstep] at h
      simp only [Bind.bind, Option.bind] at h
      have hrec := ih s1 h
      rw [hrec]
      unfold unitsFold
      rw [List.foldl_cons]
      rw [mmlsStep_bs st l s1 hstep]

/-- C8 (amended): the "Units are in " marker is tested on every line of
the input, before and after the header row alike; the block size
returned is the marker extraction — the substring from just after the
marker up to the first "-" of the line — of the last line containing
the marker (none standing for the -1 sentinel when no line has it). -/
theorem units_marker_every_line (lines : List String) (info : List Partition)
    (bs : Option String) (h : mmlsParser lines = some (info, bs)) :
    bs = unitsFold lines none := by
  unfold mmlsParser at h
  cases hf : List.foldlM mmlsStep mmlsInit lines with
  | none => rw [hf] at h; exact absurd h (by simp)
  | some st' =>
    rw [hf] at h
    simp only [Option.map_some', Option.some.injEq, Prod.mk.injEq] at h
    have := mmls_fold_bs lines mmlsInit st' hf
    rw [← h.2, this]; rfl

/-- C8 witness: the amended statement evaluated on a concrete input. -/
theorem units_marker_every_line_witness :
    mmlsParser ["Units are in 512-bytes", "Slot"]
      = some ([], some "512") ∧
    some "512" = unitsFold ["Units are in 512-bytes", "Slot"] none := by
  refine ⟨by decide, ?_⟩
  cases hp : mmlsParser ["Units are in 512-bytes", "Slot"] with
  | none => exact absurd hp (by decide)
  | some r =>
    have hr : r = ([], some "512") := by
      have := hp
      rw [show mmlsParser ["Units are in 512-bytes", "Slot"]
          = some ([], some "512") from by decide] at this
      exact (Option.some.injEq _ _ ▸ this).symm
    have := units_marker_every_line ["Units are in 512-bytes", "Slot"] r.1 r.2
      (by rw [hp])
    rw [← this, hr]

/-- C8, counterexample to the claim as stated: a line after the header
that contains the marker and parses as a row replaces the block size,
so the returned block size is "2048" from the post-header line and not
the "512" extracted from the pre-header line. -/
theorem units_marker_after_header_cex :
    extractBS "Units are in 512-bytes" = "512" ∧
    (mmlsParser ["Units are in 512-bytes", "Slot",
        "a b c d e f g h i j k l Units are in 2048-bytes"]).map (fun r => r.2)
      = some (some "2048") := by
  constructor <;> decide

/-! ## Filesystem-sequence suffixes (C5) -/

/-- Number of filesystem-bearing partitions in a list. -/
def fsCount (l : List Partition) : Nat := l.countP (fun p => p.fileSystem == "Yes")

/-- Every filesystem-bearing partition of the list carries the suffix
_fsK where K is the number of filesystem-bearing partitions before it:
the suffixes are 0-based, strictly increasing in encounter order, and
the counter advances only on such rows. -/
def suffixOK (l : List Partition) : Prop :=
  ∀ i p, l.get? i = some p → p.fileSystem = "Yes" →
    ∃ base, p.description = base ++ "_fs" ++ toString (fsCount (l.take i))

theorem take_append_le {α : Type} (l l' : List α) {n : Nat} (h : n ≤ l.length) :
    (l ++ l').take n = l.take n := by
  rw [List.take_append_eq_append_take, Nat.sub_eq_zero_of_le h, List.take_zero,
    List.append_nil]

theorem suffixOK_append (l : List Partition) (p : Partition)
    (hl : suffixOK l)
    (hp : p.fileSystem = "Yes" →
      ∃ base, p.description = base ++ "_fs" ++ toString (fsCount l)) :
    suffixOK (l ++ [p]) := by
  intro i q hq hfs
  rcases lt_trichotomy i l.length with hlt | heq | hgt
  · rw [List.get?_append hlt] at hq
    rw [take_append_le l [p] (le_of_lt hlt)]
    exact hl i q hq hfs
  · subst heq
    rw [List.get?_concat_length] at hq
    obtain rfl : p = q := by injection hq
    rw [List.take_left]
    exact hp hfs
  · rw [List.get?_eq_none.mpr (by simp; omega)] at hq
    exact absurd hq (by simp)

theorem fsCount_append_one (l : List Partition) (p : Partition) :
    fsCount (l ++ [p]) = fsCount l + (if p.fileSystem == "Yes" then 1 else 0) := by
  unfold fsCount
  rw [List.countP_append, List.countP_cons, List.countP_nil]
  simp

/-- The filesystem-classification facts of one parsed row. -/
theorem parseRow_fs (toks : List String) (c : Nat) (p : Partition) (c' : Nat)
    (h : parseRow toks c = some (p, c')) :
    (p.fileSystem = "Yes" ∨ p.fileSystem = "No") ∧
    (p.fileSystem = "Yes" ↔
      ∃ t, toks.get? 2 = some t ∧ t ≠ "Meta" ∧ pyIn ":" t = true) ∧
    (p.fileSystem = "Yes" →
      c' = c + 1 ∧
      p.description = " ".intercalate (toks.drop 14) ++ "_fs" ++ toString c) ∧
    (p.fileSystem = "No" → c' = c ∧
      ((toks.get? 2 = some "Meta" → p.description = " ".intercalate (toks.drop 17)) ∧
       (∀ t, toks.get? 2 = some t → t ≠ "Meta" →
          p.description = " ".intercalate (toks.drop 14)))) := by
  unfold parseRow at h
  cases h2 : toks.get? 2 with
  | none => rw [h2] at h; exact absurd h (by simp)
  | some slotTok =>
    rw [h2] at h
    dsimp only at h
    by_cases hm : slotTok = "Meta"
    · rw [if_pos hm] at h
      cases h8 : toks.get? 8 with
      | none => rw [h8] at h; exact absurd h (by simp)
      | some v8 =>
        rw [h8] at h
        cases h11 : toks.get? 11 with
        | none => rw [h11] at h; exact absurd h (by simp)
        | some v11 =>
          rw [h11] at h
          cases h14 : toks.get? 14 with
          | none => rw [h14] at h; exact absurd h (by simp)
          | some v14 =>
            rw [h14] at h
            simp only [Option.some.injEq, Prod.mk.injEq] at h
            obtain ⟨hp, hc'⟩ := h
            subst hp hm
            refine ⟨Or.inr rfl, ?_, fun hfs => absurd hfs (by simp), fun _ => ⟨hc'.symm, fun _ => rfl, fun t ht hne => ?_⟩⟩
            · constructor
              · intro hfs; exact absurd hfs (by simp)
              · rintro ⟨t, ht, hne, -⟩
                exact absurd (Option.some.injEq _ _ ▸ ht).symm hne
            · exact absurd (Option.some.injEq _ _ ▸ ht).symm hne
    · rw [if_neg hm] at h
      cases h5 : toks.get? 5 with
      | none => rw [h5] at h; exact absurd h (by simp)
      | some v5 =>
        rw [h5] at h
        cases h8 : toks.get? 8 with
        | none => rw [h8] at h; exact absurd h (by simp)
        | some v8 =>
          rw [h8] at h
          cases h11 : toks.get? 11 with
          | none => rw [h11] at h; exact absurd h (by simp)
          | some v11 =>
            rw [h11] at h
            dsimp only at h
            by_cases hc : pyIn ":" slotTok
            · rw [if_pos hc] at h
              simp only [Option.some.injEq, Prod.mk.injEq] at h
              obtain ⟨hp, hc'⟩ := h
              subst hp
              refine ⟨Or.inl rfl, ?_, fun _ => ⟨hc'.symm, rfl⟩,
                fun hno => absurd hno (by simp)⟩
              constructor
              · intro _; exact ⟨slotTok, rfl, hm, hc⟩
              · intro _; rfl
            · rw [if_neg hc] at h
              simp only [Option.some.injEq, Prod.mk.injEq] at h
              obtain ⟨hp, hc'⟩ := h
              subst hp
              refine ⟨Or.inr rfl, ?_, fun hfs => absurd hfs (by simp),
                fun _ => ⟨hc'.symm, fun hmeta => ?_, fun t ht hne => rfl⟩⟩
              · constructor
                · intro hfs; exact absurd hfs (by simp)
                · rintro ⟨t, ht, -, htc⟩
                  obtain rfl : slotTok = t := Option.some.injEq _ _ ▸ ht
                  exact absurd htc (by simp [hc])
              · exact absurd (Option.some.injEq _ _ ▸ hmeta) hm

/-- The info/counter effect of one loop iteration. -/
theorem mmlsStep_info (st : MmlsState) (l : String) (st' : MmlsState)
    (h : mmlsStep st l = some st') :
    (st'.info = st.info ∧ st'.counter = st.counter) ∨
    (∃ p, st'.info = st.info ++ [p] ∧
      parseRow (pySplitOn (pyStrip l) " ") st.counter = some (p, st'.counter)) := by
  unfold mmlsStep at h
  dsimp only at h
  split at h
  · split at h <;>
      (simp only [Option.some.injEq] at h; exact Or.inl (by rw [← h]; exact ⟨rfl, rfl⟩))
  · cases hpr : parseRow (pySplitOn (pyStrip l) " ") st.counter with
    | none => rw [hpr] at h; exact absurd h (by simp)
    | some pc =>
      obtain ⟨p, c'⟩ := pc
      rw [hpr] at h
      simp only [Option.some.injEq] at h
      exact Or.inr ⟨p, by rw [← h], by rw [← h]⟩

theorem mmls_fold_suffix (lines : List String) (st st' : MmlsState)
    (h : List.foldlM mmlsStep st lines = some st')
    (hc : st.counter = fsCount st.info) (hs : suffixOK st.info) :
    st'.counter = fsCount st'.info ∧ suffixOK st'.info := by
  induction lines generalizing st with
  | nil =>
    rw [List.foldlM_nil] at h
    simp only [pure, Option.some.injEq] at h
    rw [← h]
    exact ⟨hc, hs⟩
  | cons l t ih =>
    rw [List.foldlM_cons] at h
    cases hstep : mmlsStep st l with
    | none => rw [hstep] at h; exact absurd h (by simp [Bind.bind])
    | some s1 =>
      rw [hstep] at h
      simp only [Bind.bind, Option.bind] at h
      rcases mmlsStep_info st l s1 hstep with ⟨hi, hcnt⟩ | ⟨p, hi, hpr⟩
      · exact ih s1 h (by rw [hcnt, hi]; exact hc) (by rw [hi]; exact hs)
      · obtain ⟨hdi, -, hyes, hno⟩ := parseRow_fs _ _ _ _ hpr
        rcases hdi with hfs | hfs
        · obtain ⟨hcnt, hdesc⟩ := hyes hfs
          refine ih s1 h ?_ ?_
          · rw [hi, fsCount_append_one, hfs, hcnt, hc]
            simp
          · rw [hi]
            refine suffixOK_append _ _ hs (fun _ => ⟨" ".intercalate
              ((pySplitOn (pyStrip l) " ").drop 14), ?_⟩)
            rw [hdesc, hc]
        · obtain ⟨hcnt, -⟩ := hno hfs
          refine ih s1 h ?_ ?_
          · rw [hi, fsCount_append_one, hfs, hcnt, hc]
            simp
          · rw [hi]
            exact suffixOK_append _ _ hs
              (fun hy => absurd (hfs ▸ hy) (by simp))

/-- C5: the filesystem-bearing rows of a successful parse carry the
description suffixes _fs0, _fs1, ... strictly increasing in encounter
order (each suffix index equals the number of filesystem-bearing rows
before it), and at row level: a row is filesystem-bearing exactly when
its token 2 differs from "Meta" and contains ":", the counter advances
exactly on such rows, and all other rows keep their unsuffixed joined
description and get fileSystem "No". -/
theorem mmls_fs_suffix_increasing :
    (∀ lines info bs, mmlsParser lines = some (info, bs) → suffixOK info) ∧
    (∀ toks c p c', parseRow toks c = some (p, c') →
      ((p.fileSystem = "Yes" ↔
          ∃ t, toks.get? 2 = some t ∧ t ≠ "Meta" ∧ pyIn ":" t = true) ∧
       (p.fileSystem = "Yes" →
          c' = c + 1 ∧
          p.description = " ".intercalate (toks.drop 14) ++ "_fs" ++ toString c) ∧
       (p.fileSystem = "No" → c' = c ∧
          ((toks.get? 2 = some "Meta" →
              p.description = " ".intercalate (toks.drop 17)) ∧
           (∀ t, toks.get? 2 = some t → t ≠ "Meta" →
              p.description = " ".intercalate (toks.drop 14)))))) := by
  constructor
  · intro lines info bs h
    unfold mmlsParser at h
    cases hf : List.foldlM mmlsStep mmlsInit lines with
    | none => rw [hf] at h; exact absurd h (by simp)
    | some st' =>
      rw [hf] at h
      simp only [Option.map_some', Option.some.injEq, Prod.mk.injEq] at h
      have := mmls_fold_suffix lines mmlsInit st' hf rfl
        (by intro i p hp; simp [mmlsInit] at hp)
      rw [← h.1]
      exact this.2
  · intro toks c p c' h
    obtain ⟨-, hiff, hyes, hno⟩ := parseRow_fs toks c p c' h
    exact ⟨hiff, hyes, hno⟩

/-- C5 witness: the sample table (one Meta row, one unallocated row, two
filesystem rows) parses with suffixOK holding of the result. -/
theorem mmls_fs_suffix_increasing_witness :
    ∃ info bs,
      mmlsParser ["Slot", metaRowSample, fsRowSample,
        "003:  001:000   0000206848   0000207000   0000000153   Windows (0x07)"]
        = some (info, bs) ∧ suffixOK info := by
  cases hp : mmlsParser ["Slot", metaRowSample, fsRowSample,
      "003:  001:000   0000206848   0000207000   0000000153   Windows (0x07)"] with
  | none => exact absurd hp (by decide)
  | some r =>
    obtain ⟨info, bs⟩ := r
    exact ⟨info, bs, rfl, mmls_fs_suffix_increasing.1 _ info bs hp⟩

/-! ## Progress flags (C6) -/

/-- Forward-only movement of the three tri-state progress flags. -/
def flagMono (p q : Partition) : Prop :=
  (p.carved = "Yes" → q.carved = "Yes") ∧
  (p.recovered = "Yes" → q.recovered = "Yes") ∧
  (p.carvedFiles = "Yes" → q.carvedFiles = "Yes")

theorem flagMono_refl (p : Partition) : flagMono p p :=
  ⟨id, id, id⟩

theorem flagMono_trans {p q r : Partition} (h1 : flagMono p q) (h2 : flagMono q r) :
    flagMono p r :=
  ⟨fun h => h2.1 (h1.1 h), fun h => h2.2.1 (h1.2.1 h), fun h => h2.2.2 (h1.2.2 h)⟩

/-- Pointwise forward-only movement across a whole registry. -/
def regsMono (a b : List Partition) : Prop :=
  ∀ i p, a.get? i = some p → ∃ q, b.get? i = some q ∧ flagMono p q

theorem regsMono_refl (a : List Partition) : regsMono a a :=
  fun _ p hp => ⟨p, hp, flagMono_refl p⟩

theorem regsMono_trans {a b c : List Partition} (h1 : regsMono a b)
    (h2 : regsMono b c) : regsMono a c := by
  intro i p hp
  obtain ⟨q, hq, hpq⟩ := h1 i p hp
  obtain ⟨r, hr, hqr⟩ := h2 i q hq
  exact ⟨r, hr, flagMono_trans hpq hqr⟩

theorem regsMono_set (a : List Partition) (i : Nat) (p q : Partition)
    (hp : a.get? i = some p) (hm : flagMono p q) : regsMono a (a.set i q) := by
  intro k r hr
  by_cases hik : i = k
  · subst hik
    obtain rfl : p = r := by rw [hp] at hr; injection hr
    refine ⟨q, ?_, hm⟩
    rw [List.get?_set_eq]
    rw [hp]
    rfl
  · exact ⟨r, by rw [List.get?_set_ne _ a hik]; exact hr, flagMono_refl r⟩

theorem carveClassify_flagMono (p : Partition) (outPath name : String) (dd : ToolOut) :
    flagMono p (carveClassify p outPath name dd).2.1 := by
  unfold carveClassify
  split_ifs <;> first
    | exact ⟨fun _ => rfl, id, id⟩
    | exact ⟨id, id, id⟩

theorem carveRun_flagMono (cfg : CarveConfig) (p : Partition) (dd fs : ToolOut) :
    flagMono p (carveRun cfg p dd fs).part := by
  have hcl := carveClassify_flagMono p (cfg.outFolder ++ "/" ++ p.name) p.name dd
  unfold carveRun
  dsimp only
  split
  · split
    · split <;> exact ⟨fun h => hcl.1 h, fun h => hcl.2.1 h, fun h => hcl.2.2 h⟩
    · exact hcl
  · exact hcl

theorem carveFilesRun_flagMono (p : Partition) (t : ToolOut) :
    flagMono p (carveFilesRun p t).part := by
  unfold carveFilesRun
  split
  · split
    · exact flagMono_refl p
    · split
      · exact flagMono_refl p
      · split
        · exact ⟨id, id, fun _ => rfl⟩
        · exact flagMono_refl p
  · exact flagMono_refl p

theorem recoverStep_regsMono (tsk folder : String) (oracle : Nat → ToolOut)
    (st : RecoverState) (i : Nat) (hne : (oracle i).stdout ≠ "") :
    regsMono st.regs (recoverStep tsk folder oracle st i).regs := by
  unfold recoverStep
  split
  · exact regsMono_refl _
  · dsimp only
    cases hg : st.regs.get? i with
    | none => exact regsMono_refl _
    | some p =>
      dsimp only
      cases p.path with
      | none => exact regsMono_refl _
      | some pp =>
        dsimp only
        rw [if_pos hne]
        cases ((pySplitOn (oracle i).stdout ":").get? 1).bind pyIntParse with
        | none => exact regsMono_refl _
        | some n =>
          dsimp only
          split
          · exact regsMono_set _ i p _ hg ⟨id, fun _ => rfl, id⟩
          · exact regsMono_refl _

theorem recoverFold_regsMono (tsk folder : String) (oracle : Nat → ToolOut)
    (sel : List Nat) (hsel : ∀ i, i ∈ sel → (oracle i).stdout ≠ "")
    (st : RecoverState) :
    regsMono st.regs (sel.foldl (recoverStep tsk folder oracle) st).regs := by
  induction sel generalizing st with
  | nil => exact regsMono_refl _
  | cons i t ih =>
    rw [List.foldl_cons]
    exact regsMono_trans
      (recoverStep_regsMono tsk folder oracle st i (hsel i (by simp)))
      (ih (fun j hj => hsel j (by simp [hj])) _)

/-- C6 (amended): within one session the flags carved, recovered and
hasCarvedFiles only move from "No" to "Yes" under a carve job and under
a file-carve, unconditionally; under a recovery pass the same holds
provided no processed invocation of the recovery tool returned empty
stdout — an empty-stdout recovery invocation is the one operation that
writes recovered back to "No". -/
theorem flags_forward_amended :
    (∀ (cfg : CarveConfig) (p : Partition) (dd fs : ToolOut),
      flagMono p (carveRun cfg p dd fs).part) ∧
    (∀ (p : Partition) (t : ToolOut), flagMono p (carveFilesRun p t).part) ∧
    (∀ (tsk folder : String) (oracle : Nat → ToolOut) (sel : List Nat)
       (regs : List Partition),
      (∀ i, i ∈ sel → (oracle i).stdout ≠ "") →
      ∀ i p q, regs.get? i = some p →
        (recoverFiles tsk folder oracle sel regs).regs.get? i = some q →
        flagMono p q) := by
  refine ⟨carveRun_flagMono, carveFilesRun_flagMono, ?_⟩
  intro tsk folder oracle sel regs hsel i p q hp hq
  have := recoverFold_regsMono tsk folder oracle sel hsel
    { regs := regs, invocations := [], console := [], crashed := false }
  obtain ⟨q', hq', hm⟩ := this i p hp
  unfold recoverFiles at hq
  rw [hq'] at hq
  obtain rfl : q' = q := by injection hq
  exact hm

/-- Partition in the recovered state, used to exhibit the Yes-to-No
reset. -/
def recoveredPartition : Partition :=
  { samplePartition with carved := "Yes", path := some "/out/p", recovered := "Yes" }

/-- C6 witness: the amended recovery monotonicity applied at a concrete
registry and a recovery whose tool output is nonempty. -/
theorem flags_forward_amended_witness :
    ∃ q, (recoverFiles "t" "/f" (fun _ => { stdout := "files: 3", stderr := "" })
        [0] [recoveredPartition]).regs.get? 0 = some q ∧
      flagMono recoveredPartition q := by
  cases hq : (recoverFiles "t" "/f" (fun _ => { stdout := "files: 3", stderr := "" })
      [0] [recoveredPartition]).regs.get? 0 with
  | none => exact absurd hq (by decide)
  | some q =>
    refine ⟨q, rfl, ?_⟩
    exact flags_forward_amended.2.2 "t" "/f" _ [0] [recoveredPartition]
      (by intro i hi; decide) 0 recoveredPartition q (by decide) hq

/-- C6, counterexample to the claim as stated: a recovery invocation
whose tool stdout is empty writes the recovered flag of an
already-recovered partition back from "Yes" to "No" within the same
session (src/main.py line 823). -/
theorem recovered_flag_reset_cex :
    recoveredPartition.recovered = "Yes" ∧
    ((recoverFiles "t" "/f" (fun _ => { stdout := "", stderr := "" })
        [0] [recoveredPartition]).regs.get? 0).map (fun p => p.recovered)
      = some "No" := by
  constructor <;> decide

/-! ## The progress queue preserves every job's messages (C9) -/

theorem getD_eq_get?_pending (l : List (List QMsg)) (j : Nat) :
    l.getD j [] = (l.get? j).getD [] := by
  rw [List.getD_eq_getElem?_getD, List.get?_eq_getElem?]

theorem projJob_append (j : Nat) (a b : List QMsg) :
    projJob j (a ++ b) = projJob j a ++ projJob j b := by
  unfold projJob
  rw [List.filter_append, List.map_append]

/-- The in-flight bookkeeping that every scheduler step preserves: for
each job, the consumed stream plus the queued backlog plus the not yet
produced tail is exactly that job's message sequence, and pending
messages are correctly tagged. -/
def QInv (jobs : List (List String)) (st : QueueState) : Prop :=
  ∀ j, projJob j (st.out ++ st.queue) ++ (st.pending.getD j []).map (fun m => m.text)
        = jobs.getD j [] ∧
    ∀ m, m ∈ st.pending.getD j [] → m.job = j

theorem qInit_inv (jobs : List (List String)) : QInv jobs (qInit jobs) := by
  intro j
  have hget : (qInit jobs).pending.get? j
      = (jobs.get? j).map (fun a => tagJob j a) := by
    unfold qInit
    dsimp only
    rw [List.get?_map, List.get?_enum]
    cases jobs.get? j <;> rfl
  constructor
  · show projJob j ([] ++ []) ++ ((qInit jobs).pending.getD j []).map _ = _
    rw [getD_eq_get?_pending, hget]
    cases hj : jobs.get? j with
    | none =>
      have : jobs.getD j [] = [] := by
        rw [List.getD_eq_getElem?_getD, ← List.get?_eq_getElem?, hj]; rfl
      rw [this]; rfl
    | some msgs =>
      have : jobs.getD j [] = msgs := by
        rw [List.getD_eq_getElem?_getD, ← List.get?_eq_getElem?, hj]; rfl
      rw [this]
      show projJob j [] ++ (tagJob j msgs).map (fun m => m.text) = msgs
      unfold tagJob
      rw [List.map_map]
      show List.map ((fun x : QMsg => x.text) ∘ fun t => ({ job := j, text := t } : QMsg))
        msgs = msgs
      exact List.map_id' msgs
  · intro m hm
    rw [getD_eq_get?_pending, hget] at hm
    cases hj : jobs.get? j with
    | none => rw [hj] at hm; exact absurd hm (by simp)
    | some msgs =>
      rw [hj] at hm
      simp only [Option.map_some', Option.getD_some, tagJob, List.mem_map] at hm
      obtain ⟨t, -, rfl⟩ := hm
      rfl

theorem qstep_put_none (st : QueueState) (jp : Nat)
    (hp : st.pending.get? jp = none) : qstep st (.put jp) = st := by
  unfold qstep
  dsimp only
  rw [hp]

theorem qstep_put_nil (st : QueueState) (jp : Nat)
    (hp : st.pending.get? jp = some []) : qstep st (.put jp) = st := by
  unfold qstep
  dsimp only
  rw [hp]

theorem qstep_put_cons (st : QueueState) (jp : Nat) (m : QMsg) (rest : List QMsg)
    (hp : st.pending.get? jp = some (m :: rest)) :
    qstep st (.put jp)
      = { st with pending := st.pending.set jp rest, queue := st.queue ++ [m] } := by
  unfold qstep
  dsimp only
  rw [hp]

theorem qstep_get_nil (st : QueueState) (hq : st.queue = []) :
    qstep st .get = st := by
  unfold qstep
  dsimp only
  rw [hq]

theorem qstep_get_cons (st : QueueState) (m : QMsg) (rest : List QMsg)
    (hq : st.queue = m :: rest) :
    qstep st .get = { st with queue := rest, out := st.out ++ [m] } := by
  unfold qstep
  dsimp only
  rw [hq]

theorem qstep_inv (jobs : List (List String)) (st : QueueState) (e : QEvent)
    (h : QInv jobs st) : QInv jobs (qstep st e) := by
  cases e with
  | get =>
    cases hq : st.queue with
    | nil => rw [qstep_get_nil st hq]; exact h
    | cons m rest =>
      rw [qstep_get_cons st m rest hq]
      intro j
      have hj := h j
      rw [hq] at hj
      constructor
      · show projJob j (st.out ++ [m] ++ rest) ++ _ = _
        rw [List.append_assoc]
        exact hj.1
      · exact hj.2
  | put jp =>
    cases hp : st.pending.get? jp with
    | none => rw [qstep_put_none st jp hp]; exact h
    | some l =>
      cases l with
      | nil => rw [qstep_put_nil st jp hp]; exact h
      | cons m rest =>
        rw [qstep_put_cons st jp m rest hp]
        have hmtag : m.job = jp := by
          refine (h jp).2 m ?_
          rw [getD_eq_get?_pending, hp]
          simp
        intro j
        have hj := h j
        constructor
        · show projJob j (st.out ++ (st.queue ++ [m]))
              ++ ((st.pending.set jp rest).getD j []).map (fun m => m.text) = _
          rw [← List.append_assoc, projJob_append, projJob_append]
          by_cases hjj : j = jp
          · subst hjj
            have hset : (st.pending.set j rest).getD j [] = rest := by
              rw [getD_eq_get?_pending, List.get?_set_eq, hp]
              rfl
            have hold : (st.pending.getD j []).map (fun m => m.text)
                = m.text :: rest.map (fun m => m.text) := by
              rw [getD_eq_get?_pending, hp]
              rfl
            rw [hset]
            rw [projJob_append, hold] at hj
            have hsingle : projJob j [m] = [m.text] := by
              unfold projJob
              rw [List.filter_cons]
              simp [hmtag]
            rw [hsingle]
            rw [← hj.1]
            simp [List.append_assoc]
          · have hset : (st.pending.set jp rest).getD j []
                = st.pending.getD j [] := by
              rw [getD_eq_get?_pending, List.get?_set_ne _ _ (fun he => hjj he.symm),
                ← getD_eq_get?_pending]
            have hsingle : projJob j [m] = [] := by
              unfold projJob
              rw [List.filter_cons]
              have hne : (m.job == j) = false := by
                simp only [beq_eq_false_iff_ne, ne_eq, hmtag]
                exact fun he => hjj he.symm
              simp [hne]
            rw [hset, hsingle]
            rw [projJob_append] at hj
            simp only [List.append_nil]
            exact hj.1
        · intro m' hm'
          by_cases hjj : j = jp
          · subst hjj
            refine hj.2 m' ?_
            have hset : (st.pending.set j rest).getD j [] = rest := by
              rw [getD_eq_get?_pending, List.get?_set_eq, hp]
              rfl
            rw [hset] at hm'
            rw [getD_eq_get?_pending, hp]
            exact List.mem_cons_of_mem m hm'
          · refine hj.2 m' ?_
            rwa [getD_eq_get?_pending,
              List.get?_set_ne _ _ (fun he => hjj he.symm),
              ← getD_eq_get?_pending] at hm'

theorem runEvents_inv (jobs : List (List String)) (evs : List QEvent)
    (st : QueueState) (h : QInv jobs st) : QInv jobs (runEvents evs st) := by
  induction evs generalizing st with
  | nil => exact h
  | cons e t ih =>
    unfold runEvents
    rw [List.foldl_cons]
    exact ih (qstep st e) (qstep_inv jobs st e h)

theorem drainFrom_eq (out q : List QMsg) : drainFrom out q = out ++ q := by
  induction q generalizing out with
  | nil => simp [drainFrom]
  | cons m rest ih =>
    unfold drainFrom
    rw [ih]
    simp

/-- C9: over every interleaving of the jobs' put events with the
orchestrator's polling gets, if the run ends with every job's pending
sequence exhausted (all jobs finished and joined), then after the final
drain the consumed stream restricted to any job j is exactly job j's
message sequence: no message lost, none duplicated, per-job order
preserved. -/
theorem queue_messages_exact_once (jobs : List (List String)) (evs : List QEvent)
    (hdone : ∀ j, ((runEvents evs (qInit jobs)).pending.getD j []) = []) :
    ∀ j, projJob j (drainAll (runEvents evs (qInit jobs))).out = jobs.getD j [] := by
  have hinv : QInv jobs (runEvents evs (qInit jobs)) :=
    runEvents_inv jobs evs (qInit jobs) (qInit_inv jobs)
  intro j
  have h1 := (hinv j).1
  rw [hdone j] at h1
  simp only [List.map_nil, List.append_nil] at h1
  unfold drainAll
  dsimp only
  rw [drainFrom_eq]
  exact h1

/-- C9 witness: a concrete two-job interleaving. -/
theorem queue_messages_exact_once_witness :
    (∀ j, ((runEvents [QEvent.put 0, QEvent.put 1, QEvent.get, QEvent.put 0]
        (qInit [["a", "b"], ["c"]])).pending.getD j []) = []) ∧
    projJob 0 (drainAll (runEvents [QEvent.put 0, QEvent.put 1, QEvent.get,
        QEvent.put 0] (qInit [["a", "b"], ["c"]]))).out = ["a", "b"] ∧
    projJob 1 (drainAll (runEvents [QEvent.put 0, QEvent.put 1, QEvent.get,
        QEvent.put 0] (qInit [["a", "b"], ["c"]]))).out = ["c"] := by
  have hdone : ∀ j, ((runEvents [QEvent.put 0, QEvent.put 1, QEvent.get,
      QEvent.put 0] (qInit [["a", "b"], ["c"]])).pending.getD j []) = [] := by
    intro j
    match j with
    | 0 => rfl
    | 1 => rfl
    | n + 2 => rfl
  refine ⟨hdone, ?_, ?_⟩
  · have := queue_messages_exact_once [["a", "b"], ["c"]]
      [QEvent.put 0, QEvent.put 1, QEvent.get, QEvent.put 0] hdone 0
    simpa using this
  · have := queue_messages_exact_once [["a", "b"], ["c"]]
      [QEvent.put 0, QEvent.put 1, QEvent.get, QEvent.put 0] hdone 1
    simpa using this

end PyCarver
